import Mathlib

/-!
Verification of the Watchpost Python SDK (`src/sdk/python/watchpost.py`)
against its natural-language specification.

The SDK's pure helper logic (error mapping in `_request`, monitor-response
flattening, SSE line parsing, URL building, status predicates) is embedded
shallowly: Python values decoded from JSON are modelled by the `Json`
inductive, Python dicts by association lists with first-match lookup and
replace-or-append update, and fallible stdlib calls (`json.loads`, `int`)
by `Option`-returning total functions.

Server-side behaviour that the repository only calls over HTTP (heartbeat
pagination, the incident-manager invariant, confirmation-threshold
debounce) is modelled from the specification text; those definitions carry
a doc comment starting with `Modelled from the spec:`.
-/

namespace Watchpost

/-- A JSON value as decoded by Python's `json.loads`: `None`, `bool`, number
(restricted to integers in this model), `str`, `list`, `dict`.  Dicts are
association lists in insertion order. -/
inductive Json where
  | null : Json
  | bool : Bool → Json
  | num : Int → Json
  | str : String → Json
  | arr : List Json → Json
  | obj : List (String × Json) → Json

/-- Python dict lookup `d.get(k)` (keys are unique in a real dict, so
first-match lookup is faithful). -/
def jLookup : List (String × Json) → String → Option Json
  | [], _ => none
  | (k0, v0) :: rest, k => if k0 = k then some v0 else jLookup rest k

/-- Python dict assignment `d[k] = v`: updates the value in place if the key
exists (keeping its position), otherwise appends the new pair. -/
def setKey : List (String × Json) → String → Json → List (String × Json)
  | [], k, v => [(k, v)]
  | (k0, v0) :: rest, k, v =>
      if k0 = k then (k0, v) :: rest else (k0, v0) :: setKey rest k v

theorem jLookup_setKey_self (l : List (String × Json)) (k : String) (v : Json) :
    jLookup (setKey l k v) k = some v := by
  induction l with
  | nil => simp [setKey, jLookup]
  | cons p rest ih =>
      obtain ⟨k0, v0⟩ := p
      by_cases h : k0 = k
      · simp [setKey, h, jLookup]
      · simp [setKey, h, jLookup, ih]

theorem jLookup_setKey_other (l : List (String × Json)) (k k' : String) (v : Json)
    (hne : k ≠ k') : jLookup (setKey l k v) k' = jLookup l k' := by
  induction l with
  | nil => simp [setKey, jLookup, hne]
  | cons p rest ih =>
      obtain ⟨k0, v0⟩ := p
      by_cases h : k0 = k
      · subst h
        simp [setKey, jLookup, hne]
      · simp [setKey, h, jLookup, ih]

/-! ## Error mapping (`_request`, lines 214–238)

`_request` catches `urllib.error.HTTPError`, parses the error body, derives
a message, and raises one of six exception classes keyed on the HTTP status
code.  The except-branch is the pure function `requestError` below; its
inputs are the status code `e.code`, the parsed error body `err_body`
(a JSON value, the decoded body text as a `Json.str`, or `none` for an
empty body) and the fallback reason string `e.reason`. -/

/-- The most-derived exception class raised by `_request`. -/
inductive ErrKind where
  | base : ErrKind
  | notFound : ErrKind
  | auth : ErrKind
  | rateLimit : ErrKind
  | validation : ErrKind
  | conflict : ErrKind
deriving DecidableEq

/-- The data carried by a raised `WatchpostError` (or subclass): the
exception class, the message (an arbitrary Python value, since
`msg = err_body["error"]` assigns the field's value directly), the
`status_code` attribute, the `body` attribute, and — meaningful only for
`RateLimitError` — the `retry_after` attribute (its constructor default
is the int `0`). -/
structure RaisedError where
  kind : ErrKind
  message : Json
  statusCode : Nat
  body : Option Json
  retryAfter : Json

/-- Python truthiness of the parsed error body (`if err_body`). -/
def truthy : Option Json → Bool
  | none => false
  | some Json.null => false
  | some (Json.bool b) => b
  | some (Json.num n) => decide (n ≠ 0)
  | some (Json.str s) => decide (s ≠ "")
  | some (Json.arr xs) => !xs.isEmpty
  | some (Json.obj kvs) => !kvs.isEmpty

/-- A single-quote character, used by Python `repr` of strings. -/
def sq : String := String.singleton (Char.ofNat 39)

/-- Python `repr` of a value decoded by `json.loads` (string escaping
simplified to plain quoting). -/
def pyRepr : Json → String
  | Json.null => "None"
  | Json.bool b => if b then "True" else "False"
  | Json.num n => toString n
  | Json.str s => sq ++ s ++ sq
  | Json.arr xs =>
      "[" ++ String.intercalate ", " (xs.attach.map (fun x => pyRepr x.1)) ++ "]"
  | Json.obj kvs =>
      "\x7b" ++ String.intercalate ", "
        (kvs.attach.map (fun x => sq ++ x.1.1 ++ sq ++ ": " ++ pyRepr x.1.2)) ++ "\x7d"
termination_by j => sizeOf j
decreasing_by
  all_goals simp_wf
  all_goals try exact Nat.lt_of_lt_of_le (List.sizeOf_lt_of_mem x.2) (by simp)
  all_goals
    have h1 := List.sizeOf_lt_of_mem x.2
    obtain ⟨⟨a, b⟩, hm⟩ := x
    simp at h1 ⊢
    omega

/-- Python `str` applied to a value decoded by `json.loads`
(`str` of a `str` is itself; everything else matches `repr`). -/
def pyStrVal : Json → String
  | Json.str s => s
  | v => pyRepr v

/-- The message computation in `_request`'s except-branch:
`msg = str(err_body) if err_body else e.reason`, then overridden by
`err_body["error"]` when the body is a dict containing that key. -/
def errMessage (errBody : Option Json) (reason : String) : Json :=
  let base : Json :=
    if truthy errBody then
      Json.str (match errBody with | some v => pyStrVal v | none => "None")
    else Json.str reason
  match errBody with
  | some (Json.obj kvs) =>
      match jLookup kvs "error" with
      | some v => v
      | none => base
  | _ => base

/-- Python `d.get(k, dflt)`. -/
def dictGet (kvs : List (String × Json)) (k : String) (dflt : Json) : Json :=
  match jLookup kvs k with
  | some v => v
  | none => dflt

/-- The except-branch of `_request` (lines 214–238): maps the HTTP status
code, parsed error body and reason to the raised exception. -/
def requestError (code : Nat) (errBody : Option Json) (reason : String) : RaisedError :=
  let msg := errMessage errBody reason
  if code = 404 then ⟨ErrKind.notFound, msg, 404, errBody, Json.num 0⟩
  else if code = 401 ∨ code = 403 then ⟨ErrKind.auth, msg, code, errBody, Json.num 0⟩
  else if code = 409 then ⟨ErrKind.conflict, msg, 409, errBody, Json.num 0⟩
  else if code = 429 then
    let retry : Json :=
      match errBody with
      | some (Json.obj kvs) => dictGet kvs "retry_after_secs" (Json.num 0)
      | _ => Json.num 0
    ⟨ErrKind.rateLimit, msg, 429, errBody, retry⟩
  else if code = 400 ∨ code = 422 then ⟨ErrKind.validation, msg, code, errBody, Json.num 0⟩
  else ⟨ErrKind.base, msg, code, errBody, Json.num 0⟩

/-- The error taxonomy as the specification states it: 404 is NotFound,
401/403 Auth, 409 Conflict, 429 RateLimit, 400/422 Validation, and every
other error status the base error kind. -/
def specErrorKind (code : Nat) : ErrKind :=
  if code = 404 then ErrKind.notFound
  else if code = 401 ∨ code = 403 then ErrKind.auth
  else if code = 409 then ErrKind.conflict
  else if code = 429 then ErrKind.rateLimit
  else if code = 400 ∨ code = 422 then ErrKind.validation
  else ErrKind.base

theorem requestError_components (code : Nat) (errBody : Option Json) (reason : String) :
    (requestError code errBody reason).kind = specErrorKind code ∧
    (requestError code errBody reason).statusCode = code ∧
    (requestError code errBody reason).body = errBody ∧
    (requestError code errBody reason).message = errMessage errBody reason := by
  unfold requestError specErrorKind
  by_cases h1 : code = 404
  · subst h1; simp
  · by_cases h2 : code = 401 ∨ code = 403
    · simp [h1, h2]
    · by_cases h3 : code = 409
      · subst h3; simp
      · by_cases h4 : code = 429
        · subst h4; simp
        · by_cases h5 : code = 400 ∨ code = 422
          · simp [h1, h2, h3, h4, h5]
          · simp [h1, h2, h3, h4, h5]

theorem requestError_retry (errBody : Option Json) (reason : String) :
    (requestError 429 errBody reason).retryAfter =
      (match errBody with
       | some (Json.obj kvs) => dictGet kvs "retry_after_secs" (Json.num 0)
       | _ => Json.num 0) := by
  unfold requestError
  simp

/-- C1: whenever the server responds with a non-2xx status, `_request`
raises an exception of exactly the kind determined by the status code (404
NotFound, 401/403 Auth, 409 Conflict, 429 RateLimit, 400/422 Validation,
anything else the base WatchpostError); the exception always carries the
status code and the parsed error body, and its message is the body's
"error" field whenever the body is a dict containing one.  Totality of
`requestError` means no error response is silently swallowed. -/
theorem c1_error_taxonomy (code : Nat) (errBody : Option Json) (reason : String) :
    (requestError code errBody reason).kind = specErrorKind code ∧
    (requestError code errBody reason).statusCode = code ∧
    (requestError code errBody reason).body = errBody ∧
    (∀ kvs v, errBody = some (Json.obj kvs) → jLookup kvs "error" = some v →
      (requestError code errBody reason).message = v) := by
  obtain ⟨hk, hs, hb, hm⟩ := requestError_components code errBody reason
  refine ⟨hk, hs, hb, ?_⟩
  intro kvs v he hl
  rw [hm]
  subst he
  simp [errMessage, hl]

theorem c1_error_taxonomy_witness :
    (requestError 404 (some (Json.obj [("error", Json.str "monitor not found")]))
        "Not Found").kind = ErrKind.notFound ∧
    (requestError 404 (some (Json.obj [("error", Json.str "monitor not found")]))
        "Not Found").statusCode = 404 ∧
    (requestError 404 (some (Json.obj [("error", Json.str "monitor not found")]))
        "Not Found").body = some (Json.obj [("error", Json.str "monitor not found")]) ∧
    (requestError 404 (some (Json.obj [("error", Json.str "monitor not found")]))
        "Not Found").message = Json.str "monitor not found" := by
  have h := c1_error_taxonomy 404
    (some (Json.obj [("error", Json.str "monitor not found")])) "Not Found"
  exact ⟨h.1.trans (by rfl), h.2.1, h.2.2.1, h.2.2.2 _ _ rfl (by rfl)⟩

/-- C4: on a 429 response `_request` raises `RateLimitError`, whose
`retry_after` equals the error body's `retry_after_secs` field when the
body is a dict containing it, and `0` in every other case. -/
theorem c4_rate_limit_retry (errBody : Option Json) (reason : String) :
    (requestError 429 errBody reason).kind = ErrKind.rateLimit ∧
    (∀ kvs v, errBody = some (Json.obj kvs) →
      jLookup kvs "retry_after_secs" = some v →
      (requestError 429 errBody reason).retryAfter = v) ∧
    (∀ kvs, errBody = some (Json.obj kvs) →
      jLookup kvs "retry_after_secs" = none →
      (requestError 429 errBody reason).retryAfter = Json.num 0) ∧
    ((∀ kvs, errBody ≠ some (Json.obj kvs)) →
      (requestError 429 errBody reason).retryAfter = Json.num 0) := by
  have hk := (requestError_components 429 errBody reason).1
  have hr := requestError_retry errBody reason
  refine ⟨hk.trans (by rfl), ?_, ?_, ?_⟩
  · intro kvs v he hl
    subst he
    rw [hr]
    simp [dictGet, hl]
  · intro kvs he hl
    subst he
    rw [hr]
    simp [dictGet, hl]
  · intro hne
    rw [hr]
    match errBody with
    | none => rfl
    | some Json.null => rfl
    | some (Json.bool b) => rfl
    | some (Json.num n) => rfl
    | some (Json.str s) => rfl
    | some (Json.arr xs) => rfl
    | some (Json.obj kvs) => exact absurd rfl (hne kvs)

theorem c4_rate_limit_retry_witness :
    (requestError 429 (some (Json.obj [("retry_after_secs", Json.num 30)]))
        "Too Many Requests").kind = ErrKind.rateLimit ∧
    (requestError 429 (some (Json.obj [("retry_after_secs", Json.num 30)]))
        "Too Many Requests").retryAfter = Json.num 30 ∧
    (requestError 429 (some (Json.str "slow down")) "Too Many Requests").retryAfter
      = Json.num 0 := by
  have h1 := c4_rate_limit_retry
    (some (Json.obj [("retry_after_secs", Json.num 30)])) "Too Many Requests"
  have h2 := c4_rate_limit_retry (some (Json.str "slow down")) "Too Many Requests"
  refine ⟨h1.1, h1.2.1 _ _ rfl (by rfl), h2.2.2.2 ?_⟩
  intro kvs h
  exact Json.noConfusion (Option.some.inj h)

/-! ## Monitor-response flattening (`_flatten_monitor_response`, lines 255–271)

The Python function copies `resp["monitor"]` into a fresh dict and then, for
each of four fixed keys, copies the top-level value over when present. -/

/-- The four keys hoisted from the top level of the response. -/
def flattenKeys : List String := ["manage_key", "manage_url", "view_url", "api_base"]

/-- The `for k in (...)` loop body of `_flatten_monitor_response`:
`if k in resp: flat[k] = resp[k]`, iterated over the listed keys. -/
def copyPresent (top : List (String × Json)) :
    List String → List (String × Json) → List (String × Json)
  | [], flat => flat
  | k :: ks, flat =>
      match jLookup top k with
      | some v => copyPresent top ks (setKey flat k v)
      | none => copyPresent top ks flat

/-- `_flatten_monitor_response` (lines 255–271), on the decoded response
value.  Non-dict responses and dicts without a dict-valued "monitor" key
are returned unchanged. -/
def _flatten_monitor_response (resp : Json) : Json :=
  match resp with
  | Json.obj kvs =>
      match jLookup kvs "monitor" with
      | some (Json.obj mkvs) => Json.obj (copyPresent kvs flattenKeys mkvs)
      | _ => resp
  | _ => resp

theorem jLookup_copyPresent (top : List (String × Json)) (ks : List String)
    (flat : List (String × Json)) (key : String) :
    jLookup (copyPresent top ks flat) key =
      if key ∈ ks ∧ (jLookup top key).isSome then jLookup top key
      else jLookup flat key := by
  induction ks generalizing flat with
  | nil => simp [copyPresent]
  | cons k ks ih =>
      by_cases hk : key = k
      · subst hk
        cases htop : jLookup top key with
        | none =>
            simp only [copyPresent, htop]
            rw [ih]
            simp [htop]
        | some v =>
            simp only [copyPresent, htop]
            rw [ih]
            by_cases hks : key ∈ ks
            · simp [hks, htop]
            · simp [hks, htop, jLookup_setKey_self]
      · cases htop : jLookup top k with
        | none =>
            simp only [copyPresent, htop]
            rw [ih]
            simp [List.mem_cons, hk]
        | some v =>
            simp only [copyPresent, htop]
            rw [ih]
            rw [jLookup_setKey_other _ _ _ _ (fun h => hk h.symm)]
            simp [List.mem_cons, hk]

/-- C2: for a dict response with a dict-valued "monitor" key,
`_flatten_monitor_response` returns a new dict equal to `resp["monitor"]`
with each of "manage_key", "manage_url", "view_url" and "api_base"
additionally copied from the top level whenever present there; every other
input is returned unchanged.  (The function is a pure value transformer in
this embedding, so non-mutation of the argument is intrinsic.) -/
theorem c2_flatten_monitor (resp : Json) :
    (∀ kvs mkvs, resp = Json.obj kvs →
      jLookup kvs "monitor" = some (Json.obj mkvs) →
      ∃ out, _flatten_monitor_response resp = Json.obj out ∧
        (∀ k, k ∉ flattenKeys → jLookup out k = jLookup mkvs k) ∧
        (∀ k v, k ∈ flattenKeys → jLookup kvs k = some v → jLookup out k = some v) ∧
        (∀ k, k ∈ flattenKeys → jLookup kvs k = none → jLookup out k = jLookup mkvs k)) ∧
    (∀ kvs, resp = Json.obj kvs →
      (∀ mkvs, jLookup kvs "monitor" ≠ some (Json.obj mkvs)) →
      _flatten_monitor_response resp = resp) ∧
    ((∀ kvs, resp ≠ Json.obj kvs) → _flatten_monitor_response resp = resp) := by
  refine ⟨?_, ?_, ?_⟩
  · intro kvs mkvs hresp hmon
    subst hresp
    refine ⟨copyPresent kvs flattenKeys mkvs, ?_, ?_, ?_, ?_⟩
    · simp [_flatten_monitor_response, hmon]
    · intro k hk
      rw [jLookup_copyPresent]
      simp [hk]
    · intro k v hk hv
      rw [jLookup_copyPresent]
      simp [hk, hv]
    · intro k hk hv
      rw [jLookup_copyPresent]
      simp [hk, hv]
  · intro kvs hresp hmon
    subst hresp
    unfold _flatten_monitor_response
    cases hl : jLookup kvs "monitor" with
    | none => simp
    | some v =>
        cases v with
        | obj mkvs => exact absurd hl (hmon mkvs)
        | null => simp
        | bool b => simp
        | num n => simp
        | str s => simp
        | arr xs => simp
  · intro hne
    unfold _flatten_monitor_response
    match resp with
    | Json.null => rfl
    | Json.bool b => rfl
    | Json.num n => rfl
    | Json.str s => rfl
    | Json.arr xs => rfl
    | Json.obj kvs => exact absurd rfl (hne kvs)

theorem c2_flatten_monitor_witness :
    ∃ out,
      _flatten_monitor_response
        (Json.obj [("monitor", Json.obj [("id", Json.str "m1"), ("name", Json.str "api")]),
                   ("manage_key", Json.str "secret")]) = Json.obj out ∧
      jLookup out "manage_key" = some (Json.str "secret") ∧
      jLookup out "id" = some (Json.str "m1") ∧
      jLookup out "name" = some (Json.str "api") := by
  have h := (c2_flatten_monitor
      (Json.obj [("monitor", Json.obj [("id", Json.str "m1"), ("name", Json.str "api")]),
                 ("manage_key", Json.str "secret")])).1
      [("monitor", Json.obj [("id", Json.str "m1"), ("name", Json.str "api")]),
       ("manage_key", Json.str "secret")]
      [("id", Json.str "m1"), ("name", Json.str "api")] rfl (by rfl)
  obtain ⟨out, heq, hother, hpresent, habsent⟩ := h
  refine ⟨out, heq, ?_, ?_, ?_⟩
  · exact hpresent "manage_key" (Json.str "secret") (by simp [flattenKeys]) (by rfl)
  · exact (hother "id" (by simp [flattenKeys])).trans (by rfl)
  · exact (hother "name" (by simp [flattenKeys])).trans (by rfl)

/-! ## `json.loads` and `SSEEvent.json` (lines 100–114)

`json.loads` is modelled as a total `Option`-returning recursive-descent
parser over the JSON grammar (numbers restricted to integers in this
model; floats are outside the fragment the SDK's claims exercise).  Fuel
makes the recursion manifestly total; `2 * length + 4` is always enough
because every two fuel steps consume at least one character. -/

def isJsonWs (c : Char) : Bool := c = ' ' ∨ c = '\t' ∨ c = '\n' ∨ c = '\r'

def skipWs (cs : List Char) : List Char := cs.dropWhile isJsonWs

def openBrace : Char := Char.ofNat 123

def closeBrace : Char := Char.ofNat 125

def hexVal (c : Char) : Option Nat :=
  if c.isDigit then some (c.toNat - 48)
  else if 'a' ≤ c ∧ c ≤ 'f' then some (c.toNat - 87)
  else if 'A' ≤ c ∧ c ≤ 'F' then some (c.toNat - 55)
  else none

/-- Body of a JSON string after the opening quote: standard escapes,
`\uXXXX`, and a strict ban on raw control characters. -/
def parseStringBody (acc : List Char) : List Char → Option (String × List Char)
  | [] => none
  | c :: rest =>
    if c = '"' then some (String.mk acc.reverse, rest)
    else if c = '\\' then
      match rest with
      | [] => none
      | e :: rest2 =>
        if e = '"' then parseStringBody ('"' :: acc) rest2
        else if e = '\\' then parseStringBody ('\\' :: acc) rest2
        else if e = '/' then parseStringBody ('/' :: acc) rest2
        else if e = 'b' then parseStringBody ('\x08' :: acc) rest2
        else if e = 'f' then parseStringBody ('\x0c' :: acc) rest2
        else if e = 'n' then parseStringBody ('\n' :: acc) rest2
        else if e = 'r' then parseStringBody ('\x0d' :: acc) rest2
        else if e = 't' then parseStringBody ('\t' :: acc) rest2
        else if e = 'u' then
          match rest2 with
          | h1 :: h2 :: h3 :: h4 :: rest3 =>
            match hexVal h1, hexVal h2, hexVal h3, hexVal h4 with
            | some a, some b, some c2, some d =>
                parseStringBody (Char.ofNat (((a * 16 + b) * 16 + c2) * 16 + d) :: acc) rest3
            | _, _, _, _ => none
          | _ => none
        else none
    else if c.toNat < 32 then none
    else parseStringBody (c :: acc) rest

/-- Consume a run of digits, accumulating their value. -/
def digitsToNat (acc : Nat) : List Char → Nat × List Char
  | [] => (acc, [])
  | c :: rest =>
      if c.isDigit then digitsToNat (acc * 10 + (c.toNat - 48)) rest
      else (acc, c :: rest)

/-- JSON unsigned-integer lexeme: `0` alone, or a nonzero digit followed by
digits (no leading zeros). -/
def parseNatLex : List Char → Option (Nat × List Char)
  | [] => none
  | c :: rest =>
      if c = '0' then some (0, rest)
      else if c.isDigit then some (digitsToNat (c.toNat - 48) rest)
      else none

/-- JSON integer lexeme with optional leading minus sign. -/
def parseIntLex (cs : List Char) : Option (Int × List Char) :=
  match cs with
  | '-' :: rest => (parseNatLex rest).map (fun p => (-(p.1 : Int), p.2))
  | _ => (parseNatLex cs).map (fun p => ((p.1 : Int), p.2))

mutual

/-- Parse one JSON value (fuel-indexed recursion). -/
def parseVal : Nat → List Char → Option (Json × List Char)
  | 0, _ => none
  | fuel + 1, cs =>
    match skipWs cs with
    | [] => none
    | c :: rest =>
      if c = 'n' then
        match rest with
        | 'u' :: 'l' :: 'l' :: r => some (Json.null, r)
        | _ => none
      else if c = 't' then
        match rest with
        | 'r' :: 'u' :: 'e' :: r => some (Json.bool true, r)
        | _ => none
      else if c = 'f' then
        match rest with
        | 'a' :: 'l' :: 's' :: 'e' :: r => some (Json.bool false, r)
        | _ => none
      else if c = '"' then
        (parseStringBody [] rest).map (fun p => (Json.str p.1, p.2))
      else if c = '[' then
        match skipWs rest with
        | ']' :: r => some (Json.arr [], r)
        | _ => parseElems fuel rest []
      else if c = openBrace then
        match skipWs rest with
        | [] => none
        | d :: r => if d = closeBrace then some (Json.obj [], r) else parseMembers fuel rest []
      else
        match parseIntLex (c :: rest) with
        | some (n, r) =>
            match r with
            | [] => some (Json.num n, [])
            | d :: _ => if d = '.' ∨ d = 'e' ∨ d = 'E' then none else some (Json.num n, r)
        | none => none

/-- Parse the comma-separated elements of a non-empty array. -/
def parseElems : Nat → List Char → List Json → Option (Json × List Char)
  | 0, _, _ => none
  | fuel + 1, cs, acc =>
    match parseVal fuel cs with
    | none => none
    | some (v, r) =>
      match skipWs r with
      | ',' :: r2 => parseElems fuel r2 (acc ++ [v])
      | ']' :: r2 => some (Json.arr (acc ++ [v]), r2)
      | _ => none

/-- Parse the members of a non-empty object (later duplicate keys replace
earlier ones, as in a Python dict built by assignment). -/
def parseMembers : Nat → List Char → List (String × Json) → Option (Json × List Char)
  | 0, _, _ => none
  | fuel + 1, cs, acc =>
    match skipWs cs with
    | '"' :: r =>
      match parseStringBody [] r with
      | none => none
      | some (k, r2) =>
        match skipWs r2 with
        | ':' :: r3 =>
          match parseVal fuel r3 with
          | none => none
          | some (v, r4) =>
            match skipWs r4 with
            | ',' :: r5 => parseMembers fuel r5 (setKey acc k v)
            | [] => none
            | d :: r5 =>
                if d = closeBrace then some (Json.obj (setKey acc k v), r5) else none
        | _ => none
    | _ => none

end

/-- `json.loads`: parse a complete JSON document; trailing whitespace is
allowed, anything else after the value is an error. -/
def jsonLoads (s : String) : Option Json :=
  match parseVal (2 * s.data.length + 4) s.data with
  | some (v, r) => if skipWs r = [] then some v else none
  | none => none

/-- The `SSEEvent` dataclass (lines 100–106). -/
structure SSEEvent where
  event : String := "message"
  data : String := ""
  id : Option String := none
  retry : Option Int := none
deriving DecidableEq

/-- The lazy `.json` property (lines 108–114): `json.loads(self.data)`,
with any decoding failure caught and turned into `None`. -/
def SSEEvent.json (e : SSEEvent) : Option Json := jsonLoads e.data

/-- C3: `SSEEvent.json` is total — it returns the decoded value of `data`
when `data` is valid JSON and `none` (raising nothing) otherwise; being a
pure function of the event, it leaves the stored fields unchanged. -/
theorem c3_sse_json_total (e : SSEEvent) :
    SSEEvent.json e = jsonLoads e.data ∧
    (∀ v, jsonLoads e.data = some v → SSEEvent.json e = some v) ∧
    (jsonLoads e.data = none → SSEEvent.json e = none) := by
  refine ⟨rfl, ?_, ?_⟩
  · intro v h
    exact h
  · intro h
    exact h

theorem c3_sse_json_total_witness :
    SSEEvent.json ⟨"message", "\x7b\"a\": [1, true, null, \"x\"]\x7d", none, none⟩
      = some (Json.obj [("a", Json.arr [Json.num 1, Json.bool true, Json.null, Json.str "x"])]) ∧
    SSEEvent.json ⟨"message", "not json", none, none⟩ = none := by
  have h1 := c3_sse_json_total ⟨"message", "\x7b\"a\": [1, true, null, \"x\"]\x7d", none, none⟩
  have h2 := c3_sse_json_total ⟨"message", "not json", none, none⟩
  exact ⟨h1.2.1 _ (by rfl), h2.2.2 (by rfl)⟩

/-! ## SSE stream parsing (`_iter_sse`, lines 117–148)

Input lines are modelled as the decoded strings handed to the loop; each is
right-stripped of `\n`/`\r`, comment lines are skipped, `field:value`
lines update the current event, blank lines (and end of stream) flush it
when non-default. -/

def isNlCr (c : Char) : Bool := c = '\n' ∨ c = '\r'

/-- `line.rstrip("\n\r")`. -/
def rstripNl (cs : List Char) : List Char := (cs.reverse.dropWhile isNlCr).reverse

/-- Python `str.strip()` whitespace, as stripped by `int()` (ASCII part). -/
def isPySpace (c : Char) : Bool :=
  c = ' ' ∨ c = '\t' ∨ c = '\n' ∨ c = '\x0b' ∨ c = '\x0c' ∨ c = '\r'

/-- Digit run with single underscores allowed between digits, as accepted
by Python `int()`. -/
def digitsCore (acc : Nat) : List Char → Option Nat
  | [] => some acc
  | c :: rest =>
      if c.isDigit then digitsCore (acc * 10 + (c.toNat - 48)) rest
      else if c = '_' then
        match rest with
        | [] => none
        | d :: rest2 =>
            if d.isDigit then digitsCore (acc * 10 + (d.toNat - 48)) rest2 else none
      else none

/-- A nonempty unsigned digit run (first character must be a digit). -/
def parseDigitsU : List Char → Option Nat
  | [] => none
  | c :: rest => if c.isDigit then digitsCore (c.toNat - 48) rest else none

/-- Python `int(s)` on a decoded string: surrounding whitespace stripped,
optional sign, then digits (ASCII model). Returns `none` where Python
raises `ValueError`. -/
def pyInt (s : String) : Option Int :=
  let cs := ((s.data.dropWhile isPySpace).reverse.dropWhile isPySpace).reverse
  match cs with
  | '+' :: rest => (parseDigitsU rest).map (fun n => (n : Int))
  | '-' :: rest => (parseDigitsU rest).map (fun n => -(n : Int))
  | _ => (parseDigitsU cs).map (fun n => (n : Int))

/-- The freshly reset `SSEEvent()` between events. -/
def emptyEvent : SSEEvent := {}

/-- The yield guard `current.data or current.event != "message"`. -/
def wantsYield (cur : SSEEvent) : Bool :=
  cur.data != "" || cur.event != "message"

/-- `line.partition(":")` plus the single-leading-space strip of the value
(the else-branch `field, value = line, ""` when no colon is present). -/
def parseLineChars (cs : List Char) : List Char × List Char :=
  if ':' ∈ cs then
    let f := cs.takeWhile (fun c => c != ':')
    let v := (cs.dropWhile (fun c => c != ':')).drop 1
    (f, match v with
        | ' ' :: v2 => v2
        | _ => v)
  else (cs, [])

/-- The field dispatch of `_iter_sse`: `event`, `data` (accumulated with a
newline separator), `id`, `retry` (non-integer values ignored); unknown
fields are ignored. -/
def applyLineChars (cur : SSEEvent) (cs : List Char) : SSEEvent :=
  let p := parseLineChars cs
  let f := String.mk p.1
  let v := String.mk p.2
  if f = "event" then { cur with event := v }
  else if f = "data" then
    { cur with data := if cur.data = "" then v else cur.data ++ "\n" ++ v }
  else if f = "id" then { cur with id := some v }
  else if f = "retry" then
    match pyInt v with
    | some n => { cur with retry := some n }
    | none => cur
  else cur

/-- `line.startswith(":")`. -/
def startsColon : List Char → Bool
  | ':' :: _ => true
  | _ => false

/-- The loop of `_iter_sse`, carrying the current event. -/
def iterSSEFrom (cur : SSEEvent) : List String → List SSEEvent
  | [] => if wantsYield cur then [cur] else []
  | raw :: rest =>
      let cs := rstripNl raw.data
      if cs = [] then
        if wantsYield cur then cur :: iterSSEFrom emptyEvent rest
        else iterSSEFrom emptyEvent rest
      else if startsColon cs then iterSSEFrom cur rest
      else iterSSEFrom (applyLineChars cur cs) rest

/-- `_iter_sse` (lines 117–148) on a list of decoded response lines. -/
def _iter_sse (lines : List String) : List SSEEvent := iterSSEFrom emptyEvent lines

/-- C8: in `_iter_sse`, comment lines are ignored; successive `data:`
values accumulate joined by a single newline, with one leading space after
the colon stripped; a non-integer `retry` value is ignored; and an event
is yielded — at a blank line or at end of stream — exactly when the
accumulated event has non-empty data or a non-default event type. -/
theorem c8_iter_sse :
    (∀ cur raw rest t, rstripNl raw.data = ':' :: t →
        iterSSEFrom cur (raw :: rest) = iterSSEFrom cur rest) ∧
    (∀ cur v, applyLineChars cur ("data: ".data ++ v)
        = { cur with data := if cur.data = "" then String.mk v
                             else cur.data ++ "\n" ++ String.mk v }) ∧
    (∀ cur v, pyInt (String.mk v) = none →
        applyLineChars cur ("retry: ".data ++ v) = cur) ∧
    (∀ cur raw rest, rstripNl raw.data = [] →
        iterSSEFrom cur (raw :: rest)
          = (if wantsYield cur then [cur] else []) ++ iterSSEFrom emptyEvent rest) ∧
    (∀ cur, iterSSEFrom cur [] = if wantsYield cur then [cur] else []) ∧
    (∀ cur, wantsYield cur = (cur.data != "" || cur.event != "message")) := by
  refine ⟨?_, ?_, ?_, ?_, ?_, ?_⟩
  · intro cur raw rest t h
    simp [iterSSEFrom, h, startsColon]
  · intro cur v
    rfl
  · intro cur v h
    show (match pyInt (String.mk v) with
          | some n => { cur with retry := some n }
          | none => cur) = cur
    rw [h]
  · intro cur raw rest h
    by_cases hw : wantsYield cur <;> simp [iterSSEFrom, h, hw]
  · intro cur
    rfl
  · intro cur
    rfl

theorem c8_iter_sse_witness :
    iterSSEFrom emptyEvent [":c", "data: x"] = iterSSEFrom emptyEvent ["data: x"] ∧
    applyLineChars ⟨"message", "a", none, none⟩ ("data: ".data ++ "b".data)
      = ⟨"message", "a\nb", none, none⟩ ∧
    applyLineChars emptyEvent ("retry: ".data ++ "xx".data) = emptyEvent ∧
    iterSSEFrom ⟨"message", "a", none, none⟩ ["", "data: z"]
      = ⟨"message", "a", none, none⟩ :: iterSSEFrom emptyEvent ["data: z"] ∧
    iterSSEFrom ⟨"ping", "", none, none⟩ [] = [⟨"ping", "", none, none⟩] := by
  have h := c8_iter_sse
  refine ⟨h.1 emptyEvent ":c" ["data: x"] "c".data (by rfl), ?_, ?_, ?_, ?_⟩
  · rw [h.2.1 ⟨"message", "a", none, none⟩ "b".data]
    rfl
  · exact h.2.2.1 emptyEvent "xx".data (by rfl)
  · rw [h.2.2.2.1 ⟨"message", "a", none, none⟩ "" ["data: z"] (by rfl)]
    rfl
  · rw [h.2.2.2.2.1 ⟨"ping", "", none, none⟩]
    rfl

/-! ## URL building (`_url`, lines 172–177)

Query parameter values passed by the SDK are strings or ints (or `None`
for omitted parameters).  `urllib.parse.urlencode` with `quote_plus`
percent-encodes the UTF-8 bytes of keys and stringified values, mapping
space to `+` and keeping only the always-safe characters. -/

/-- A Python query-parameter value as passed by the SDK. -/
inductive PyVal where
  | pstr : String → PyVal
  | pint : Int → PyVal
deriving DecidableEq

/-- Python `str()` on a parameter value. -/
def pyValToString : PyVal → String
  | PyVal.pstr s => s
  | PyVal.pint n => toString n

/-- The UTF-8 encoding of one character, as byte values. -/
def utf8Bytes (c : Char) : List Nat :=
  let n := c.toNat
  if n < 128 then [n]
  else if n < 2048 then [192 + n / 64, 128 + n % 64]
  else if n < 65536 then [224 + n / 4096, 128 + (n / 64) % 64, 128 + n % 64]
  else [240 + n / 262144, 128 + (n / 4096) % 64, 128 + (n / 64) % 64, 128 + n % 64]

/-- The always-safe bytes of `urllib.parse.quote`: ASCII letters, digits,
`_`, `.`, `-`, `~`. -/
def isSafeByte (b : Nat) : Bool :=
  (65 ≤ b ∧ b ≤ 90) ∨ (97 ≤ b ∧ b ≤ 122) ∨ (48 ≤ b ∧ b ≤ 57) ∨
    b = 95 ∨ b = 46 ∨ b = 45 ∨ b = 126

/-- Uppercase hex digit. -/
def hexDigitU (n : Nat) : Char :=
  if n < 10 then Char.ofNat (48 + n) else Char.ofNat (55 + n)

/-- `quote_plus` on a single UTF-8 byte value. -/
def quoteByte (b : Nat) : String :=
  if b = 32 then "+"
  else if isSafeByte b then String.singleton (Char.ofNat b)
  else String.mk ['%', hexDigitU (b / 16), hexDigitU (b % 16)]

/-- `urllib.parse.quote_plus(s, safe="")`: percent-encode the UTF-8 bytes,
with space mapped to `+`. -/
def quotePlus (s : String) : String :=
  String.join ((s.data.flatMap utf8Bytes).map quoteByte)

/-- One `key=value` pair of the encoded query string. -/
def encodePair (p : String × PyVal) : String :=
  quotePlus p.1 ++ "=" ++ quotePlus (pyValToString p.2)

/-- `urllib.parse.urlencode(filtered, doseq=True)` on scalar values. -/
def urlencode (ps : List (String × PyVal)) : String :=
  String.intercalate "&" (ps.map encodePair)

/-- The dict comprehension `{k: v for k, v in params.items() if v is not
None}` (insertion order preserved). -/
def filteredParams : List (String × Option PyVal) → List (String × PyVal)
  | [] => []
  | (k, some v) :: rest => (k, v) :: filteredParams rest
  | (_, none) :: rest => filteredParams rest

/-- `_url` (lines 172–177). -/
def _url (baseUrl path : String) (params : List (String × Option PyVal)) : String :=
  let filtered := filteredParams params
  if filtered.isEmpty then baseUrl ++ path
  else baseUrl ++ path ++ "?" ++ urlencode filtered

theorem filteredParams_eq_nil (ps : List (String × Option PyVal)) :
    filteredParams ps = [] ↔ ∀ p ∈ ps, p.2 = none := by
  induction ps with
  | nil => simp [filteredParams]
  | cons p rest ih =>
      obtain ⟨k, v⟩ := p
      cases v with
      | none => simp [filteredParams, ih]
      | some w => simp [filteredParams]

theorem mem_filteredParams (ps : List (String × Option PyVal)) (k : String) (v : PyVal) :
    (k, v) ∈ filteredParams ps ↔ (k, some v) ∈ ps := by
  induction ps with
  | nil => simp [filteredParams]
  | cons p rest ih =>
      obtain ⟨k0, v0⟩ := p
      cases v0 with
      | none =>
          simp only [filteredParams, ih, List.mem_cons]
          constructor
          · intro h
            exact Or.inr h
          · rintro (h | h)
            · exact absurd h (by simp)
            · exact h
      | some w => simp [filteredParams, ih]

/-- C9: `_url` returns `base_url ++ path` followed by a query string
encoding exactly the parameters whose value is not `None`; when every
parameter is `None` (or none are given) no `?` is appended at all. -/
theorem c9_url (base path : String) (ps : List (String × Option PyVal)) :
    ((∀ p ∈ ps, (p : String × Option PyVal).2 = none) → _url base path ps = base ++ path) ∧
    ((¬ ∀ p ∈ ps, p.2 = none) →
      _url base path ps = base ++ path ++ "?" ++ urlencode (filteredParams ps)) ∧
    (∀ k v, (k, v) ∈ filteredParams ps ↔ (k, some v) ∈ ps) := by
  refine ⟨?_, ?_, fun k v => mem_filteredParams ps k v⟩
  · intro h
    have hnil : filteredParams ps = [] := (filteredParams_eq_nil ps).2 h
    simp [_url, hnil]
  · intro h
    have hnil : filteredParams ps ≠ [] := fun hc => h ((filteredParams_eq_nil ps).1 hc)
    simp [_url, List.isEmpty_iff, hnil]

theorem c9_url_witness :
    _url "http://h" "/api/v1/monitors" [("after", none), ("limit", none)]
      = "http://h/api/v1/monitors" ∧
    _url "http://h" "/p" [("after", some (PyVal.pint 5)), ("search", none),
        ("tag", some (PyVal.pstr "a b"))] = "http://h/p?after=5&tag=a+b" ∧
    (("tag", PyVal.pstr "a b") ∈ filteredParams [("after", some (PyVal.pint 5)),
        ("search", none), ("tag", some (PyVal.pstr "a b"))] ↔
      ("tag", some (PyVal.pstr "a b")) ∈ [("after", some (PyVal.pint 5)),
        ("search", none), ("tag", some (PyVal.pstr "a b"))]) := by
  have h1 := c9_url "http://h" "/api/v1/monitors" [("after", none), ("limit", none)]
  have h2 := c9_url "http://h" "/p" [("after", some (PyVal.pint 5)), ("search", none),
      ("tag", some (PyVal.pstr "a b"))]
  refine ⟨h1.1 (by simp), ?_, h2.2.2 "tag" (PyVal.pstr "a b")⟩
  rw [h2.2.1 (by simp)]
  rfl

/-! ## Status predicates (`is_up` / `all_up`, lines 1044–1054)

`is_up` fetches the monitor and compares `mon.get("current_status")` with
the string `"up"`; `all_up` does the same over the public monitor list.
The HTTP fetch is abstracted as the decoded dict(s) passed in. -/

/-- Python `value == "up"` for an optional fetched field: true exactly for
the string `"up"`; `None` (missing key) and every non-string compare
false. -/
def eqUp : Option Json → Bool
  | some (Json.str s) => s == "up"
  | _ => false

/-- `is_up` (lines 1044–1047), on the fetched monitor dict. -/
def is_up (mon : List (String × Json)) : Bool :=
  eqUp (jLookup mon "current_status")

/-- `all_up` (lines 1049–1054), on the fetched public monitor list. -/
def all_up (monitors : List (List (String × Json))) : Bool :=
  if monitors.isEmpty then true
  else monitors.all (fun m => eqUp (jLookup m "current_status"))

/-- C10: `is_up` is true iff the monitor's `current_status` field equals
the string `"up"` (missing field or any other value — including `"paused"`
and `"degraded"` — gives false); `all_up` is true on an empty list, and
otherwise true iff every listed monitor's `current_status` equals `"up"`. -/
theorem c10_is_up_all_up :
    (∀ mon, is_up mon = true ↔ jLookup mon "current_status" = some (Json.str "up")) ∧
    (∀ mon, jLookup mon "current_status" = none → is_up mon = false) ∧
    (∀ mon v, jLookup mon "current_status" = some v → v ≠ Json.str "up" →
      is_up mon = false) ∧
    all_up [] = true ∧
    (∀ ms, all_up ms = true ↔
      ∀ m ∈ ms, jLookup m "current_status" = some (Json.str "up")) := by
  have heq : ∀ o, eqUp o = true ↔ o = some (Json.str "up") := by
    intro o
    match o with
    | none => simp [eqUp]
    | some Json.null => simp [eqUp]
    | some (Json.bool b) => simp [eqUp]
    | some (Json.num n) => simp [eqUp]
    | some (Json.str s) => simp [eqUp]
    | some (Json.arr xs) => simp [eqUp]
    | some (Json.obj kvs) => simp [eqUp]
  refine ⟨?_, ?_, ?_, rfl, ?_⟩
  · intro mon
    exact heq (jLookup mon "current_status")
  · intro mon h
    simp only [is_up, h]
    rfl
  · intro mon v h hne
    simp only [is_up, h]
    rcases hv : eqUp (some v) with _ | _
    · rfl
    · exact absurd (Option.some.inj ((heq (some v)).1 hv)) hne
  · intro ms
    cases ms with
    | nil => simp [all_up]
    | cons m rest =>
        have hall : all_up (m :: rest)
            = (m :: rest).all (fun x => eqUp (jLookup x "current_status")) := rfl
        rw [hall, List.all_eq_true]
        constructor
        · intro h x hx
          exact (heq _).1 (h x hx)
        · intro h x hx
          exact (heq _).2 (h x hx)

theorem c10_is_up_all_up_witness :
    (is_up [("current_status", Json.str "up")] = true ↔
      jLookup [("current_status", Json.str "up")] "current_status"
        = some (Json.str "up")) ∧
    is_up [("name", Json.str "api")] = false ∧
    is_up [("current_status", Json.str "paused")] = false ∧
    all_up [] = true ∧
    all_up [[("current_status", Json.str "up")],
            [("current_status", Json.str "down")]] = false := by
  have h := c10_is_up_all_up
  refine ⟨h.1 [("current_status", Json.str "up")],
    h.2.1 [("name", Json.str "api")] (by rfl),
    h.2.2.1 [("current_status", Json.str "paused")] (Json.str "paused") (by rfl)
      (by simp), h.2.2.2.1, ?_⟩
  rcases ha : all_up [[("current_status", Json.str "up")],
      [("current_status", Json.str "down")]] with _ | _
  · rfl
  · have := (h.2.2.2.2 _).1 ha [("current_status", Json.str "down")] (by simp)
    simp [jLookup] at this

/-! ## Heartbeat pagination (C5)

The heartbeat listing endpoint lives in the server, which is not part of
this repository; only the SDK wrapper `list_heartbeats` (lines 435–454,
which forwards `after` and `limit` as query parameters) is present. -/

/-- One stored heartbeat: a per-monitor strictly-increasing `seq` plus its
recorded raw status. -/
structure Heartbeat where
  seq : Nat
  status : String
deriving DecidableEq

/-- Modelled from the spec: the server-side heartbeat listing behind
`list_heartbeats` is absent from the repository.  Per the spec's cursor
contract, `after = S` returns only heartbeats with `seq` strictly greater
than `S`, and `limit = K` truncates the result to at most `K` items. -/
def list_heartbeats (store : List Heartbeat) (after : Option Nat)
    (limit : Option Nat) : List Heartbeat :=
  let cut := match after with
    | none => store
    | some s => store.filter (fun h => decide (s < h.seq))
  match limit with
  | none => cut
  | some k => cut.take k

/-- C5: `list_heartbeats(after = S)` never returns a heartbeat with
`seq ≤ S`, and `limit = K` returns at most `K` heartbeats. -/
theorem c5_heartbeat_pagination (store : List Heartbeat) (s k : Nat) :
    (∀ lim h, h ∈ list_heartbeats store (some s) lim → s < h.seq) ∧
    (∀ a, (list_heartbeats store a (some k)).length ≤ k) := by
  constructor
  · intro lim h hmem
    have hfil : h ∈ store.filter (fun x => decide (s < x.seq)) := by
      unfold list_heartbeats at hmem
      match lim with
      | none => exact hmem
      | some j => exact List.mem_of_mem_take hmem
    have := (List.mem_filter.1 hfil).2
    simpa using this
  · intro a
    unfold list_heartbeats
    match a with
    | none => simp
    | some s2 => simp

theorem c5_heartbeat_pagination_witness :
    (5 : Nat) < (Heartbeat.mk 7 "up").seq ∧
    (list_heartbeats [Heartbeat.mk 3 "up", Heartbeat.mk 7 "up",
        Heartbeat.mk 9 "down"] (some 5) none).length ≤ 2 := by
  have h := c5_heartbeat_pagination
    [Heartbeat.mk 3 "up", Heartbeat.mk 7 "up", Heartbeat.mk 9 "down"] 5 2
  constructor
  · exact h.1 none (Heartbeat.mk 7 "up") (by simp [list_heartbeats])
  · have h2 := h.2 (some 5)
    have : list_heartbeats [Heartbeat.mk 3 "up", Heartbeat.mk 7 "up",
        Heartbeat.mk 9 "down"] (some 5) (some 2)
      = list_heartbeats [Heartbeat.mk 3 "up", Heartbeat.mk 7 "up",
        Heartbeat.mk 9 "down"] (some 5) none := by rfl
    rw [this] at h2
    exact h2

/-! ## Incident manager invariant (C6)

The incident manager lives in the server, absent from the repository.  Per
the spec (§4.2, §5), a confirmed down transition opens an incident only
when none is open, a confirmed recovery resolves the open one,
acknowledgement never touches `resolved_at`, and all mutations of one
monitor's incident state are serialized; concurrency across monitors is
modelled as arbitrary interleaving of these per-monitor commits. -/

/-- One incident: opened timestamp, resolution timestamp (`none` while
open), acknowledgement timestamp. -/
structure Incident where
  openedAt : Nat
  resolvedAt : Option Nat
  acknowledgedAt : Option Nat
deriving DecidableEq

/-- The incidents of a monitor that are currently open. -/
def openIncidents (incs : List Incident) : List Incident :=
  incs.filter (fun i => i.resolvedAt.isNone)

/-- Modelled from the spec: the Incident Manager's confirmed-down commit —
`\x7bNo Incident\x7d → Open` — creates a new open incident only when the
monitor has none open. -/
def confirmedDown (t : Nat) (incs : List Incident) : List Incident :=
  if (openIncidents incs).isEmpty then incs ++ [⟨t, none, none⟩] else incs

/-- Modelled from the spec: the confirmed-recovery commit resolves the open
incident (`Open → Resolved`), setting `resolved_at`. -/
def confirmedRecovery (t : Nat) (incs : List Incident) : List Incident :=
  incs.map (fun i => if i.resolvedAt.isNone then ⟨i.openedAt, some t, i.acknowledgedAt⟩ else i)

/-- Modelled from the spec: acknowledging an incident (by position) sets
`acknowledged_at` and never touches `resolved_at`. -/
def ackAt : Nat → Nat → List Incident → List Incident
  | _, _, [] => []
  | 0, t, i :: rest => ⟨i.openedAt, i.resolvedAt, some t⟩ :: rest
  | idx + 1, t, i :: rest => i :: ackAt idx t rest

/-- Update one monitor's incident list inside the system state. -/
def applySys (s : String → List Incident) (m : String)
    (f : List Incident → List Incident) : String → List Incident :=
  fun m2 => if m2 = m then f (s m2) else s m2

/-- One serialized per-monitor commit; different monitors' commits
interleave arbitrarily. -/
inductive SysStep : (String → List Incident) → (String → List Incident) → Prop
  | down (s : String → List Incident) (m : String) (t : Nat) :
      SysStep s (applySys s m (confirmedDown t))
  | recover (s : String → List Incident) (m : String) (t : Nat) :
      SysStep s (applySys s m (confirmedRecovery t))
  | ack (s : String → List Incident) (m : String) (idx t : Nat) :
      SysStep s (applySys s m (ackAt idx t))

/-- States reachable from the empty system by interleaved commits. -/
inductive ReachableSys : (String → List Incident) → Prop
  | init : ReachableSys (fun _ => [])
  | step (s s2 : String → List Incident) :
      ReachableSys s → SysStep s s2 → ReachableSys s2

theorem openIncidents_confirmedDown (t : Nat) (incs : List Incident)
    (h : (openIncidents incs).length ≤ 1) :
    (openIncidents (confirmedDown t incs)).length ≤ 1 := by
  unfold confirmedDown
  by_cases he : (openIncidents incs).isEmpty
  · rw [if_pos he]
    unfold openIncidents at he ⊢
    rw [List.filter_append]
    rw [List.isEmpty_iff] at he
    simp [he]
  · rw [if_neg he]
    exact h

theorem openIncidents_confirmedRecovery (t : Nat) (incs : List Incident) :
    openIncidents (confirmedRecovery t incs) = [] := by
  induction incs with
  | nil => rfl
  | cons i rest ih =>
      unfold confirmedRecovery at ih ⊢
      cases hi : i.resolvedAt with
      | none =>
          simp only [List.map_cons, hi, Option.isNone_none, if_pos]
          unfold openIncidents at ih ⊢
          simpa using ih
      | some r =>
          simp only [List.map_cons, hi, Option.isNone_some]
          unfold openIncidents at ih ⊢
          simp only [List.filter_cons, hi]
          simpa [hi] using ih

theorem openIncidents_cons (i : Incident) (l : List Incident) :
    openIncidents (i :: l)
      = if i.resolvedAt.isNone then i :: openIncidents l else openIncidents l := by
  unfold openIncidents
  rw [List.filter_cons]

theorem openIncidents_ackAt (idx t : Nat) (incs : List Incident) :
    (openIncidents (ackAt idx t incs)).length = (openIncidents incs).length := by
  induction incs generalizing idx with
  | nil => cases idx <;> rfl
  | cons i rest ih =>
      cases idx with
      | zero =>
          have h0 : ackAt 0 t (i :: rest)
              = ⟨i.openedAt, i.resolvedAt, some t⟩ :: rest := rfl
          rw [h0, openIncidents_cons, openIncidents_cons]
          by_cases hi : i.resolvedAt.isNone <;> simp [hi]
      | succ idx2 =>
          have h0 : ackAt (idx2 + 1) t (i :: rest) = i :: ackAt idx2 t rest := rfl
          rw [h0, openIncidents_cons, openIncidents_cons]
          by_cases hi : i.resolvedAt.isNone <;> simp [hi, ih idx2]

/-- C6: in every reachable state each monitor has at most one open incident
(`resolved_at = none`); the invariant is preserved by every commit and by
arbitrary interleaving of commits across monitors (per-monitor evaluation
being serialized, as the spec requires). -/
theorem c6_single_open_incident (s : String → List Incident)
    (hreach : ReachableSys s) : ∀ m, (openIncidents (s m)).length ≤ 1 := by
  induction hreach with
  | init =>
      intro m
      simp [openIncidents]
  | step s1 s2 h1 hstep ih =>
      intro m
      cases hstep with
      | down m0 t =>
          unfold applySys
          by_cases hm : m = m0
          · rw [if_pos hm]
            exact openIncidents_confirmedDown t (s1 m) (ih m)
          · rw [if_neg hm]
            exact ih m
      | recover m0 t =>
          unfold applySys
          by_cases hm : m = m0
          · rw [if_pos hm]
            rw [openIncidents_confirmedRecovery]
            simp
          · rw [if_neg hm]
            exact ih m
      | ack m0 idx t =>
          unfold applySys
          by_cases hm : m = m0
          · rw [if_pos hm]
            rw [openIncidents_ackAt]
            exact ih m
          · rw [if_neg hm]
            exact ih m

theorem c6_single_open_incident_witness :
    (openIncidents ((applySys (applySys (fun _ => []) "m1" (confirmedDown 5))
        "m1" (confirmedDown 9)) "m1")).length ≤ 1 :=
  c6_single_open_incident _
    (ReachableSys.step _ _
      (ReachableSys.step _ _ ReachableSys.init (SysStep.down _ "m1" 5))
      (SysStep.down _ "m1" 9)) "m1"

/-! ## Confirmation-threshold debounce (C7)

The status evaluator lives in the server, absent from the repository. -/

/-- The status evaluator's debounce state: the last committed status, the
candidate status being confirmed, and how many consecutive raw checks have
agreed with the candidate. -/
structure EvalState where
  committed : String
  candidate : String
  streak : Nat
deriving DecidableEq

/-- Modelled from the spec: the Status Evaluator's confirmation debounce —
a raw check equal to the committed status resets the pending change; a raw
check agreeing with the pending candidate extends its streak; a new
candidate starts a streak of 1; the change is committed once
`confirmation_threshold` consecutive checks agree (`threshold = 1` commits
immediately). -/
def evalStep (n : Nat) (s : EvalState) (raw : String) : EvalState :=
  if raw = s.committed then ⟨s.committed, raw, 0⟩
  else
    let k := if raw = s.candidate then s.streak + 1 else 1
    if n ≤ k then ⟨raw, raw, 0⟩ else ⟨s.committed, raw, k⟩

/-- Feed a sequence of raw check results through the evaluator. -/
def runEval (n : Nat) (s : EvalState) (raws : List String) : EvalState :=
  raws.foldl (evalStep n) s

theorem runEval_replicate_pending (n : Nat) (c d : String) (hne : d ≠ c)
    (m k : Nat) (hk : 1 ≤ k) (hm : k + m < n) :
    runEval n ⟨c, d, k⟩ (List.replicate m d) = ⟨c, d, k + m⟩ := by
  induction m generalizing k with
  | zero => rfl
  | succ m2 ih =>
      rw [List.replicate_succ]
      have hstep : evalStep n ⟨c, d, k⟩ d = ⟨c, d, k + 1⟩ := by
        unfold evalStep
        rw [if_neg hne]
        have hkk : (if d = d then k + 1 else 1) = k + 1 := by simp
        rw [hkk]
        rw [if_neg (by omega : ¬ n ≤ k + 1)]
      have hcons : runEval n ⟨c, d, k⟩ (d :: List.replicate m2 d)
          = runEval n (evalStep n ⟨c, d, k⟩ d) (List.replicate m2 d) := rfl
      rw [hcons, hstep, ih (k + 1) (by omega) (by omega)]
      congr 1
      omega

/-- C7: with `confirmation_threshold = N > 1`, `N − 1` consecutive
disagreeing raw checks leave `current_status` at its last committed value
and the `N`-th consecutive agreeing check commits the change; with
`confirmation_threshold = 1` a single check commits immediately. -/
theorem c7_confirmation_debounce (n : Nat) (c d : String) (hne : d ≠ c) :
    (1 < n →
      (runEval n ⟨c, c, 0⟩ (List.replicate (n - 1) d)).committed = c ∧
      (runEval n ⟨c, c, 0⟩ (List.replicate n d)).committed = d) ∧
    (∀ s raw, raw ≠ s.committed → (evalStep 1 s raw).committed = raw) := by
  constructor
  · intro hn
    have hfirst : evalStep n ⟨c, c, 0⟩ d = ⟨c, d, 1⟩ := by
      unfold evalStep
      rw [if_neg hne]
      have hkk : (if d = c then 0 + 1 else 1) = 1 := by rw [if_neg hne]
      rw [hkk]
      rw [if_neg (by omega : ¬ n ≤ 1)]
    have hpend : runEval n ⟨c, c, 0⟩ (List.replicate (n - 1) d) = ⟨c, d, n - 1⟩ := by
      have h1 : n - 1 = (n - 2) + 1 := by omega
      rw [h1, List.replicate_succ]
      have hcons : runEval n ⟨c, c, 0⟩ (d :: List.replicate (n - 2) d)
          = runEval n (evalStep n ⟨c, c, 0⟩ d) (List.replicate (n - 2) d) := rfl
      rw [hcons, hfirst,
        runEval_replicate_pending n c d hne (n - 2) 1 (by omega) (by omega)]
      congr 1
      omega
    constructor
    · rw [hpend]
    · have hlist : (List.replicate n d : List String)
          = List.replicate (n - 1) d ++ [d] := by
        conv_lhs => rw [show n = (n - 1) + 1 from by omega]
        rw [List.replicate_succ']
      have hsplit : runEval n ⟨c, c, 0⟩ (List.replicate n d)
          = evalStep n (runEval n ⟨c, c, 0⟩ (List.replicate (n - 1) d)) d := by
        rw [hlist]
        unfold runEval
        rw [List.foldl_append]
        rfl
      rw [hsplit, hpend]
      unfold evalStep
      rw [if_neg hne]
      have hkk : (if d = d then (n - 1) + 1 else 1) = (n - 1) + 1 := by simp
      rw [hkk]
      rw [if_pos (by omega : n ≤ (n - 1) + 1)]
  · intro s raw hraw
    unfold evalStep
    rw [if_neg hraw]
    have h1 : 1 ≤ (if raw = s.candidate then s.streak + 1 else 1) := by
      by_cases hc : raw = s.candidate
      · rw [if_pos hc]
        omega
      · rw [if_neg hc]
    rw [if_pos h1]

theorem c7_confirmation_debounce_witness :
    (runEval 3 ⟨"up", "up", 0⟩ (List.replicate 2 "down")).committed = "up" ∧
    (runEval 3 ⟨"up", "up", 0⟩ (List.replicate 3 "down")).committed = "down" ∧
    (evalStep 1 ⟨"up", "up", 0⟩ "down").committed = "down" := by
  have h := c7_confirmation_debounce 3 "up" "down" (by decide)
  exact ⟨(h.1 (by omega)).1, (h.1 (by omega)).2,
    h.2 ⟨"up", "up", 0⟩ "down" (by decide)⟩

end Watchpost
